import Mathlib

/-
Verification of the kidshell command interpreter (src/shell.c).

The development shallowly embeds the C program: C strings become `List Char`,
the process environment becomes an association list, libc calls that the
program delegates to (setenv, unsetenv, getcwd, wordexp, waitpid status
macros, strsignal, strlcpy) are modelled by small Lean functions whose doc
comments name the contract they follow, and the interactive main loop becomes
a trace function from a list of per-iteration stimuli (what the outside world
answers: the line read, the word-expansion outcome, allocation and chdir and
wait outcomes) to a list of observable events (prompts, diagnostics, launches,
releases of the two reusable buffers, process exit).
-/

set_option autoImplicit false

namespace KidShell

/-- C strings are modelled as lists of characters. -/
abbrev Str := List Char

/-- Shorthand turning a Lean string literal into the `List Char` model. -/
def str (s : String) : Str := s.toList

/-- The process environment (the Environment Store): an association list of
key/value pairs with unique keys. -/
abbrev Env := List (Str × Str)

/-- Lookup of a key, as `getenv`: first matching entry's value. -/
def Env.get : Env → Str → Option Str
  | [], _ => none
  | (k', v) :: rest, k => if k' = k then some v else Env.get rest k

/-- Overwriting insertion, the success case of `setenv` with overwrite:
replaces the first entry with the key, or appends a fresh entry. -/
def Env.setRaw : Env → Str → Str → Env
  | [], k, v => [(k, v)]
  | (k', v') :: rest, k, v =>
    if k' = k then (k, v) :: rest else (k', v') :: Env.setRaw rest k v

/-- Removal of every entry with the key, the success case of `unsetenv`. -/
def Env.removeRaw : Env → Str → Env
  | [], _ => []
  | (k', v') :: rest, k =>
    if k' = k then Env.removeRaw rest k else (k', v') :: Env.removeRaw rest k

/-- Models POSIX `setenv(key, v, 1)`: fails (EINVAL) when the key is empty or
contains an equals sign, otherwise stores the pair, overwriting. Allocation
failure inside libc is not modelled. -/
def setenv (env : Env) (key v : Str) : Option Env :=
  if key = [] ∨ '=' ∈ key then none else some (Env.setRaw env key v)

/-- Models POSIX `unsetenv(key)`: fails (EINVAL) when the key is empty or
contains an equals sign, otherwise removes the key; removing an absent key
succeeds. -/
def unsetenv (env : Env) (key : Str) : Option Env :=
  if key = [] ∨ '=' ∈ key then none else some (Env.removeRaw env key)

/-- The split performed by `strsep(&value, "=")` in `do_export`: the part
before the first `'='`, and — when an `'='` occurs — the part after it. -/
def splitFirstEq : Str → Str × Option Str
  | [] => ([], none)
  | c :: cs =>
    if c = '=' then ([], some cs)
    else
      let p := splitFirstEq cs
      (c :: p.1, p.2)

/-- The diagnostics the program can print via glibc `error(3)`. -/
inductive Diag where
  | cwdFail (e : Nat)
  | expBadchar
  | expBadval
  | expCmdsub
  | expNospace
  | expSyntaxErr
  | unexpectedExpCode (c : Int)
  | couldntSet (arg : Str)
  | strdupFail
  | couldntUnset (arg : Str)
  | homeNotSet
  | tooManyArgs
  | couldntCd (dir : Str)
  | forkFail
  | waitFail
  | waitInvariant
  | readFail
  deriving DecidableEq

/-- Result of `do_export`: either the final environment with the diagnostics
printed along the way, or a fatal `strdup` failure (the process exits), with
the diagnostics printed before that point. -/
inductive ExportRes where
  | ok (env : Env) (ds : List Diag)
  | fatal (ds : List Diag)
  deriving DecidableEq

/-- The diagnostics of an `ExportRes`. -/
def ExportRes.diags : ExportRes → List Diag
  | .ok _ ds => ds
  | .fatal ds => ds

/-- The final environment of an `ExportRes`, when the process survived. -/
def ExportRes.envOut : ExportRes → Option Env
  | .ok e _ => some e
  | .fatal _ => none

/-- Prefix a diagnostic to an `ExportRes`. -/
def ExportRes.consDiag (d : Diag) : ExportRes → ExportRes
  | .ok e ds => .ok e (d :: ds)
  | .fatal ds => .fatal (d :: ds)

/-- The builtin `do_export` from src/shell.c. Each argument is duplicated with `strdup`
(`allocFailAt` says at which argument, if any, that duplication fails, which
the program treats as fatal), split at the first `'='` by `strsep`; when a
value part exists the pair is passed to `setenv`, a set failure is reported
and processing continues; without a value part the argument is ignored. -/
def do_export : Option Nat → List Str → Env → ExportRes
  | _, [], env => .ok env []
  | alloc, a :: rest, env =>
    if alloc = some 0 then .fatal []
    else
      let alloc' := alloc.map (· - 1)
      match (splitFirstEq a).2 with
      | none => do_export alloc' rest env
      | some v =>
        match setenv env (splitFirstEq a).1 v with
        | some env' => do_export alloc' rest env'
        | none => (do_export alloc' rest env).consDiag (.couldntSet a)

/-- The builtin `do_unset` from src/shell.c: each argument is passed to `unsetenv`; a
failure is reported and processing continues. -/
def do_unset : List Str → Env → Env × List Diag
  | [], env => (env, [])
  | a :: rest, env =>
    match unsetenv env a with
    | some env' => do_unset rest env'
    | none =>
      let p := do_unset rest env
      (p.1, .couldntUnset a :: p.2)

/-- Whether `do_cd` changed the working directory, and to what. -/
inductive CdEffect where
  | changedTo (dir : Str)
  | noChange
  deriving DecidableEq

/-- The builtin `do_cd` from src/shell.c. `chdirOk` is the outcome the OS would give to
`chdir` on the computed target this invocation. Zero arguments take the
target from `HOME` (diagnostic and no change when unset); a second argument
is rejected; a failed `chdir` is a diagnostic and no change. -/
def do_cd (env : Env) (chdirOk : Bool) (args : List Str) : CdEffect × List Diag :=
  match args with
  | [] =>
    match Env.get env (str "HOME") with
    | none => (.noChange, [.homeNotSet])
    | some dir =>
      if chdirOk then (.changedTo dir, []) else (.noChange, [.couldntCd dir])
  | dir :: rest =>
    if rest ≠ [] then (.noChange, [.tooManyArgs])
    else if chdirOk then (.changedTo dir, []) else (.noChange, [.couldntCd dir])

/-- The bound of the prompt's working-directory label in src/shell.c. -/
def MAX_PATH_AT_PROMPT : Nat := 256

/-- The `strlcpy` defined at the top of src/shell.c, modelled by the string
left in `dst` (nothing is written when `size` is zero) together with the
returned source length. -/
def strlcpy (src : Str) (size : Nat) : Str × Nat :=
  (if size = 0 then [] else src.take (size - 1), src.length)

/-- Outcome of the `getcwd` call made by `prompt`. -/
inductive GetcwdOutcome where
  | ok (path : Str)
  | erange
  | fail (e : Nat)
  deriving DecidableEq

/-- Models POSIX `getcwd(buf, MAX_PATH_AT_PROMPT)`: it yields the true path
when that path and its terminator fit the buffer, fails with ERANGE when they
do not, and `otherFail` injects any other errno the OS may report. -/
def getcwdModel (truePath : Str) (otherFail : Option Nat) : GetcwdOutcome :=
  match otherFail with
  | some e => .fail e
  | none =>
    if truePath.length + 1 ≤ MAX_PATH_AT_PROMPT then .ok truePath else .erange

/-- What one prompt rendering produced: the directory label shown between the
brackets, and the `error(status, ...)` calls made (status, diagnostic). -/
structure PromptOut where
  label : Str
  reports : List (Nat × Diag)
  deriving DecidableEq

/-- The function `prompt` from src/shell.c: three outcomes of the `getcwd` query map to
the true path, a fixed too-long placeholder, or a non-fatal diagnostic plus a
fixed failure placeholder; the placeholders are written with `strlcpy`. -/
def prompt (truePath : Str) (otherFail : Option Nat) : PromptOut :=
  match getcwdModel truePath otherFail with
  | .ok p => ⟨p, []⟩
  | .erange => ⟨(strlcpy (str "!Path too long to be shown!") MAX_PATH_AT_PROMPT).1, []⟩
  | .fail e => ⟨(strlcpy (str "!Failed to get CWD!") MAX_PATH_AT_PROMPT).1, [(0, .cwdFail e)]⟩

/-- Models the glibc wait-status macro `WIFEXITED`: the low seven status bits
are zero. -/
def WIFEXITED (s : Nat) : Bool := s % 128 = 0

/-- Models the glibc wait-status macro `WEXITSTATUS`: bits 8..15. -/
def WEXITSTATUS (s : Nat) : Nat := (s / 256) % 256

/-- Models the glibc wait-status macro `WTERMSIG`: the low seven bits. -/
def WTERMSIG (s : Nat) : Nat := s % 128

/-- Reinterpretation of a byte as a C `signed char`. -/
def signedChar (n : Nat) : Int :=
  if n % 256 < 128 then ((n % 256 : Nat) : Int) else ((n % 256 : Nat) : Int) - 256

/-- Models the glibc wait-status macro `WIFSIGNALED`:
`((signed char)(((s) & 0x7f) + 1) >> 1) > 0`. -/
def WIFSIGNALED (s : Nat) : Bool := 0 < signedChar (s % 128 + 1) / 2

/-- Models glibc `strsignal` on the common standard signals; other numbers
get the generic description. -/
def strsignal (sig : Nat) : Str :=
  if sig = 1 then str "Hangup"
  else if sig = 2 then str "Interrupt"
  else if sig = 6 then str "Aborted"
  else if sig = 9 then str "Killed"
  else if sig = 11 then str "Segmentation fault"
  else if sig = 15 then str "Terminated"
  else str "Unknown signal"

/-- The observable events of one session: prompt renderings, the newline
printed at end-of-input, `error(status, ...)` calls, child launches and their
termination reports, the two releases (`free(line)` and `wordfree(&p)`), and
the process exit with its status. -/
inductive Event where
  | promptEv
  | outNewline
  | report (status : Nat) (d : Diag)
  | launched (prog : Str) (argv : List Str)
  | reportExit (code : Nat)
  | reportSignal (sig : Nat) (name : Str)
  | freeLine
  | freeWordexp
  | exited (code : Nat)
  deriving DecidableEq

/-- What `waitpid`/`fork` answered for one launch. -/
inductive ChildWait where
  | forkFail
  | waitFail
  | status (s : Nat)
  deriving DecidableEq

/-- The function `launch` from src/shell.c, parent side (the child's own exec-failure path
runs in the child process and is not part of the session trace). Returns the
events and whether the session continues: a wait status that is neither an
exit nor a signal is a fatal invariant violation. -/
def launch (prog : Str) (argv : List Str) (w : ChildWait) : List Event × Bool :=
  match w with
  | .forkFail => ([.report 0 .forkFail], true)
  | .waitFail => ([.launched prog argv, .report 0 .waitFail], true)
  | .status s =>
    if WIFEXITED s then
      ([.launched prog argv, .reportExit (WEXITSTATUS s)], true)
    else if WIFSIGNALED s then
      ([.launched prog argv, .reportSignal (WTERMSIG s) (strsignal (WTERMSIG s))], true)
    else
      ([.launched prog argv, .report 1 .waitInvariant, .exited 1], false)

/-- The function `trim_newline` from src/shell.c: strips one trailing newline, if any. -/
def trim_newline (l : Str) : Str :=
  if l.getLast? = some '\n' then l.dropLast else l

/-- glibc `wordexp` flag values. -/
def WRDE_DOOFFS : Nat := 1
/-- glibc `wordexp` flag values. -/
def WRDE_APPEND : Nat := 2
/-- glibc `wordexp` flag values. -/
def WRDE_NOCMD : Nat := 4
/-- glibc `wordexp` flag values. -/
def WRDE_REUSE : Nat := 8
/-- glibc `wordexp` flag values. -/
def WRDE_SHOWERR : Nat := 16
/-- glibc `wordexp` flag values. -/
def WRDE_UNDEF : Nat := 32

/-- The flag set main passes to `wordexp` in src/shell.c line 139:
`WRDE_REUSE | WRDE_SHOWERR | WRDE_UNDEF`. -/
def shellWordexpFlags : Nat := WRDE_REUSE ||| WRDE_SHOWERR ||| WRDE_UNDEF

/-- Classified outcome of one `wordexp` call, as switched on by main. -/
inductive ExpResult where
  | ok (words : List Str)
  | errBadchar
  | errBadval
  | errCmdsub
  | errNospace
  | errSyntaxErr
  | errOther (c : Int)
  deriving DecidableEq

/-- Whether a line textually requests a command substitution (`$(...)`). -/
def hasCmdSub : Str → Bool
  | [] => false
  | '$' :: '(' :: _ => true
  | _ :: rest => hasCmdSub rest

/-- Modelled from the POSIX contract of the external `wordexp` facility (the
facility itself is not repository code): the `WRDE_CMDSUB` failure is
reported only when the caller passed `WRDE_NOCMD` and the line requests a
command substitution. -/
def wordexpContract (flags : Nat) (line : Str) (r : ExpResult) : Prop :=
  r = .errCmdsub → (flags &&& WRDE_NOCMD ≠ 0 ∧ hasCmdSub line = true)

/-- Routing decision of main's dispatcher on the expanded words. -/
inductive Action where
  | nop
  | builtinExport (args : List Str)
  | builtinUnset (args : List Str)
  | builtinExit
  | builtinCd (args : List Str)
  | launchProg (prog : Str) (argv : List Str)
  deriving DecidableEq

/-- The dispatcher of src/shell.c lines 161-175: an empty word vector is a
no-op; otherwise the first word is compared by `strcmp` against `export`,
`unset`, `exit`, `cd` in that order; on no match the whole vector is handed
to `launch` with the first word as the program. -/
def dispatch (words : List Str) : Action :=
  match words with
  | [] => .nop
  | w :: rest =>
    if w = str "export" then .builtinExport rest
    else if w = str "unset" then .builtinUnset rest
    else if w = str "exit" then .builtinExit
    else if w = str "cd" then .builtinCd rest
    else .launchProg w (w :: rest)

/-- One loop iteration's external stimuli when a line was read: the raw line,
the `wordexp` outcome on it, where (if anywhere) a `strdup` inside
`do_export` fails, the `chdir` outcome if `cd` runs, and the fork/wait
outcome if a program is launched. -/
structure LineStim where
  raw : Str
  exp : ExpResult
  allocFailAt : Option Nat
  chdirOk : Bool
  child : ChildWait
  deriving DecidableEq

/-- One iteration's stimulus: either `getline` returned a line, or it
returned -1 (end of input, with or without a stream error). -/
inductive Stim where
  | eof (readError : Bool)
  | line (ls : LineStim)
  deriving DecidableEq

/-- Result of processing one read line: the events after the prompt, and
either the environment the loop continues with or termination. -/
inductive StepRes where
  | cont (evs : List Event) (env : Env)
  | halt (evs : List Event)
  deriving DecidableEq

/-- The body of main's loop after `getline` succeeded (src/shell.c lines
138-175): `wordexp` classification, then dispatch to the builtins or to
`launch`. Fatal `error(EXIT_FAILURE, ...)` paths halt with `exited 1`; the
`exit` builtin halts through the epilogue that releases both buffers. -/
def stepStim (env : Env) (ls : LineStim) : StepRes :=
  match ls.exp with
  | .errBadchar => .cont [.report 0 .expBadchar] env
  | .errBadval => .cont [.report 0 .expBadval] env
  | .errCmdsub => .cont [.report 0 .expCmdsub] env
  | .errNospace => .cont [.report 0 .expNospace] env
  | .errSyntaxErr => .cont [.report 0 .expSyntaxErr] env
  | .errOther c => .halt [.report 1 (.unexpectedExpCode c), .exited 1]
  | .ok ws =>
    match dispatch ws with
    | .nop => .cont [] env
    | .builtinExit => .halt [.freeWordexp, .freeLine, .exited 0]
    | .builtinExport args =>
      match do_export ls.allocFailAt args env with
      | .ok env' ds => .cont (ds.map (Event.report 0 ·)) env'
      | .fatal ds => .halt (ds.map (Event.report 0 ·) ++ [.report 1 .strdupFail, .exited 1])
    | .builtinUnset args =>
      let p := do_unset args env
      .cont (p.2.map (Event.report 0 ·)) p.1
    | .builtinCd args =>
      let p := do_cd env ls.chdirOk args
      .cont (p.2.map (Event.report 0 ·)) env
    | .launchProg prog argv =>
      let p := launch prog argv ls.child
      if p.2 then .cont p.1 env else .halt p.1

/-- The main loop of src/shell.c as a trace function. An exhausted stimulus
list is the program blocking at `getline` after showing the prompt. Clean
end-of-input prints one newline and runs the epilogue (release both buffers,
exit 0); end-of-input with a stream error prints the newline and then dies
fatally at the `ferror` check, before any release. -/
def runShell (env : Env) : List Stim → List Event
  | [] => [.promptEv]
  | .eof rerr :: _ =>
    if rerr then [.promptEv, .outNewline, .report 1 .readFail, .exited 1]
    else [.promptEv, .outNewline, .freeWordexp, .freeLine, .exited 0]
  | .line ls :: rest =>
    match stepStim env ls with
    | .cont evs env' => .promptEv :: (evs ++ runShell env' rest)
    | .halt evs => .promptEv :: evs

/-- Number of occurrences of an event in a trace. -/
def countEv (e : Event) : List Event → Nat
  | [] => 0
  | x :: tr => (if x = e then 1 else 0) + countEv e tr

/-- Events that are neither a buffer release nor a process exit. -/
def benign : Event → Bool
  | .freeLine => false
  | .freeWordexp => false
  | .exited _ => false
  | _ => true

/-- Release/exit bookkeeping of one processed line: a continuing iteration
releases nothing and does not exit; a halting iteration either went through
the exit-builtin epilogue (each buffer released exactly once, then exit
status 0) or died fatally (no release, exit status 1). -/
def stepOK : StepRes → Prop
  | .cont evs _ =>
    countEv .freeLine evs = 0 ∧ countEv .freeWordexp evs = 0 ∧
      Event.exited 0 ∉ evs ∧ Event.exited 1 ∉ evs
  | .halt evs =>
    (countEv .freeLine evs = 1 ∧ countEv .freeWordexp evs = 1 ∧
      Event.exited 0 ∈ evs ∧ Event.exited 1 ∉ evs)
    ∨ (countEv .freeLine evs = 0 ∧ countEv .freeWordexp evs = 0 ∧
      Event.exited 0 ∉ evs ∧ Event.exited 1 ∈ evs)

/-- The events of a step result. -/
def evsOf : StepRes → List Event
  | .cont evs _ => evs
  | .halt evs => evs

/-- The POSIX wordexp contract instantiated with the flag set main actually
passes, applied to the line as main expands it (after newline trimming). -/
def contractOK : Stim → Prop
  | .line ls => wordexpContract shellWordexpFlags (trim_newline ls.raw) ls.exp
  | .eof _ => True

theorem Env.get_setRaw_same (env : Env) (k v : Str) :
    Env.get (Env.setRaw env k v) k = some v := by
  induction env with
  | nil => simp [Env.setRaw, Env.get]
  | cons p rest ih =>
    obtain ⟨k', v'⟩ := p
    by_cases h : k' = k
    · simp [Env.setRaw, Env.get, h]
    · simp [Env.setRaw, Env.get, h, ih]

theorem Env.get_setRaw_other (env : Env) (k v k' : Str) (hne : k' ≠ k) :
    Env.get (Env.setRaw env k v) k' = Env.get env k' := by
  induction env with
  | nil => simp [Env.setRaw, Env.get, Ne.symm hne]
  | cons p rest ih =>
    obtain ⟨k'', v''⟩ := p
    by_cases h : k'' = k
    · subst h
      simp [Env.setRaw, Env.get, Ne.symm hne]
    · simp [Env.setRaw, Env.get, h, ih]

theorem Env.removeRaw_of_get_none (env : Env) (k : Str) (h : Env.get env k = none) :
    Env.removeRaw env k = env := by
  induction env with
  | nil => simp [Env.removeRaw]
  | cons p rest ih =>
    obtain ⟨k', v'⟩ := p
    by_cases hk : k' = k
    · simp [Env.get, hk] at h
    · simp [Env.get, hk] at h
      simp [Env.removeRaw, hk, ih h]

theorem Env.get_removeRaw (env : Env) (k : Str) :
    Env.get (Env.removeRaw env k) k = none := by
  induction env with
  | nil => simp [Env.removeRaw, Env.get]
  | cons p rest ih =>
    obtain ⟨k', v'⟩ := p
    by_cases hk : k' = k
    · simp [Env.removeRaw, hk, ih]
    · simp [Env.removeRaw, Env.get, hk, ih]

theorem Env.removeRaw_idem (env : Env) (k : Str) :
    Env.removeRaw (Env.removeRaw env k) k = Env.removeRaw env k :=
  Env.removeRaw_of_get_none _ _ (Env.get_removeRaw env k)

theorem countEv_append (e : Event) (l₁ l₂ : List Event) :
    countEv e (l₁ ++ l₂) = countEv e l₁ + countEv e l₂ := by
  induction l₁ with
  | nil => simp [countEv]
  | cons x tr ih => simp [countEv, ih]; omega

theorem countEv_eq_zero (e : Event) (tr : List Event) (h : e ∉ tr) :
    countEv e tr = 0 := by
  induction tr with
  | nil => rfl
  | cons x tr ih =>
    simp only [List.mem_cons, not_or] at h
    simp [countEv, Ne.symm h.1, ih h.2]

theorem mem_map_report {e : Event} {st : Nat} {ds : List Diag}
    (h : ∀ d, e ≠ Event.report st d) : e ∉ ds.map (Event.report st ·) := by
  intro hmem
  obtain ⟨d, _, hd⟩ := List.mem_map.mp hmem
  exact h d hd.symm

theorem countEv_map_report_zero (e : Event) (st : Nat) (ds : List Diag)
    (h : ∀ d, e ≠ Event.report st d) : countEv e (ds.map (Event.report st ·)) = 0 :=
  countEv_eq_zero e _ (mem_map_report h)

/-- The builtin export loop without an allocation failure never takes the fatal path. -/
theorem do_export_none_ok (args : List Str) (env : Env) :
    ∃ e ds, do_export none args env = .ok e ds := by
  induction args generalizing env with
  | nil => exact ⟨env, [], rfl⟩
  | cons a rest ih =>
    rcases hsplit : (splitFirstEq a).2 with _ | v
    · simpa [do_export, hsplit] using ih env
    · rcases hset : setenv env (splitFirstEq a).1 v with _ | env'
      · obtain ⟨e, ds, h⟩ := ih env
        exact ⟨e, .couldntSet a :: ds,
          by simp [do_export, hsplit, hset, h, ExportRes.consDiag]⟩
      · simpa [do_export, hsplit, hset] using ih env'

/-- The expansion-failure diagnostics never come out of `do_export`. -/
theorem expCmdsub_not_in_export_diags (alloc : Option Nat) (args : List Str) (env : Env) :
    Diag.expCmdsub ∉ (do_export alloc args env).diags := by
  induction args generalizing alloc env with
  | nil => simp [do_export, ExportRes.diags]
  | cons a rest ih =>
    by_cases h0 : alloc = some 0
    · simp [do_export, h0, ExportRes.diags]
    · rcases hsplit : (splitFirstEq a).2 with _ | v
      · simpa [do_export, h0, hsplit] using ih (alloc.map (· - 1)) env
      · rcases hset : setenv env (splitFirstEq a).1 v with _ | env'
        · have hin := ih (alloc.map (· - 1)) env
          rcases hrec : do_export (alloc.map (· - 1)) rest env with ⟨e, ds⟩ | ds <;>
            rw [hrec] at hin <;>
            simpa [do_export, h0, hsplit, hset, hrec, ExportRes.consDiag,
              ExportRes.diags] using hin
        · simpa [do_export, h0, hsplit, hset] using ih (alloc.map (· - 1)) env'

/-- The expansion-failure diagnostics never come out of `do_unset`. -/
theorem expCmdsub_not_in_unset_diags (args : List Str) (env : Env) :
    Diag.expCmdsub ∉ (do_unset args env).2 := by
  induction args generalizing env with
  | nil => simp [do_unset]
  | cons a rest ih =>
    simp only [do_unset]
    match unsetenv env a with
    | some env' => exact ih env'
    | none =>
      simp only [List.mem_cons, not_or]
      exact ⟨by simp, ih env⟩

/-- The expansion-failure diagnostics never come out of `do_cd`. -/
theorem expCmdsub_not_in_cd_diags (env : Env) (b : Bool) (args : List Str) :
    Diag.expCmdsub ∉ (do_cd env b args).2 := by
  match args with
  | [] =>
    simp only [do_cd]
    match Env.get env (str "HOME") with
    | none => simp
    | some dir => cases b <;> simp
  | dir :: rest =>
    simp only [do_cd]
    by_cases h : rest ≠ [] <;> cases b <;> simp [h]

theorem benign_spec (evs : List Event) (h : ∀ x ∈ evs, benign x = true) :
    countEv .freeLine evs = 0 ∧ countEv .freeWordexp evs = 0 ∧
      ∀ c, Event.exited c ∉ evs := by
  refine ⟨countEv_eq_zero _ _ ?_, countEv_eq_zero _ _ ?_, ?_⟩
  · intro hmem
    have := h _ hmem
    simp [benign] at this
  · intro hmem
    have := h _ hmem
    simp [benign] at this
  · intro c hmem
    have := h _ hmem
    simp [benign] at this

theorem benign_map_report (st : Nat) (ds : List Diag) :
    ∀ x ∈ ds.map (Event.report st ·), benign x = true := by
  intro x hx
  obtain ⟨d, _, rfl⟩ := List.mem_map.mp hx
  rfl

theorem report_not_mem_map {st st' : Nat} {d : Diag} {ds : List Diag} (h : d ∉ ds) :
    Event.report st d ∉ ds.map (Event.report st' ·) := by
  intro hmem
  obtain ⟨d', hd', heq⟩ := List.mem_map.mp hmem
  injection heq with h1 h2
  exact h (h2 ▸ hd')

theorem stepStim_ok (env : Env) (ls : LineStim) : stepOK (stepStim env ls) := by
  obtain ⟨raw, exp, alloc, chd, child⟩ := ls
  cases exp with
  | ok ws =>
    rcases hd : dispatch ws with _ | args | args | _ | args | ⟨prog, argv⟩
    · simp [stepStim, hd, stepOK, countEv]
    · rcases hex : do_export alloc args env with ⟨env', ds⟩ | ds
      · have hb := benign_spec _ (benign_map_report 0 ds)
        simp only [stepStim, hd, hex, stepOK]
        exact ⟨hb.1, hb.2.1, hb.2.2 0, hb.2.2 1⟩
      · have hb := benign_spec _ (benign_map_report 0 ds)
        simp only [stepStim, hd, hex, stepOK]
        right
        refine ⟨?_, ?_, ?_, ?_⟩
        · rw [countEv_append, hb.1]
          simp [countEv]
        · rw [countEv_append, hb.2.1]
          simp [countEv]
        · simp only [List.mem_append, not_or]
          exact ⟨hb.2.2 0, by simp⟩
        · simp
    · have hb := benign_spec _ (benign_map_report 0 (do_unset args env).2)
      simp only [stepStim, hd, stepOK]
      exact ⟨hb.1, hb.2.1, hb.2.2 0, hb.2.2 1⟩
    · simp [stepStim, hd, stepOK, countEv]
    · have hb := benign_spec _ (benign_map_report 0 (do_cd env chd args).2)
      simp only [stepStim, hd, stepOK]
      exact ⟨hb.1, hb.2.1, hb.2.2 0, hb.2.2 1⟩
    · cases child with
      | forkFail => simp [stepStim, hd, launch, stepOK, countEv]
      | waitFail => simp [stepStim, hd, launch, stepOK, countEv]
      | status s =>
        by_cases h1 : WIFEXITED s
        · simp [stepStim, hd, launch, h1, stepOK, countEv]
        · by_cases h2 : WIFSIGNALED s
          · simp [stepStim, hd, launch, h1, h2, stepOK, countEv]
          · simp only [stepStim, hd, launch, h1, h2, if_false, stepOK]
            right
            simp [countEv]
  | errBadchar => simp [stepStim, stepOK, countEv]
  | errBadval => simp [stepStim, stepOK, countEv]
  | errCmdsub => simp [stepStim, stepOK, countEv]
  | errNospace => simp [stepStim, stepOK, countEv]
  | errSyntaxErr => simp [stepStim, stepOK, countEv]
  | errOther c =>
    simp only [stepStim, stepOK]
    right
    simp [countEv]

/-- The release discipline over every possible session trace: the number of
`free(line)` and `wordfree(&p)` releases agree, never exceed one, are exactly
one on every trace reaching exit status 0, and zero on every trace reaching
the fatal exit status 1. -/
theorem runShell_release_spec (ss : List Stim) : ∀ env : Env,
    countEv .freeLine (runShell env ss) = countEv .freeWordexp (runShell env ss)
    ∧ countEv .freeLine (runShell env ss) ≤ 1
    ∧ (Event.exited 0 ∈ runShell env ss → countEv .freeLine (runShell env ss) = 1)
    ∧ (Event.exited 1 ∈ runShell env ss → countEv .freeLine (runShell env ss) = 0) := by
  induction ss with
  | nil => intro env; simp [runShell, countEv]
  | cons s rest ih =>
    intro env
    match s with
    | .eof rerr => cases rerr <;> simp [runShell, countEv]
    | .line ls =>
      have hstep := stepStim_ok env ls
      rcases h : stepStim env ls with ⟨evs, env'⟩ | evs
      · rw [h] at hstep
        obtain ⟨h1, h2, h3, h4⟩ := hstep
        obtain ⟨i1, i2, i3, i4⟩ := ih env'
        simp only [runShell, h]
        refine ⟨?_, ?_, ?_, ?_⟩
        · simp [countEv, countEv_append, h1, h2, i1]
        · simpa [countEv, countEv_append, h1] using i2
        · intro hm
          simp only [List.mem_cons, List.mem_append] at hm
          rcases hm with hm | hm | hm
          · exact absurd hm (by decide)
          · exact absurd hm h3
          · simp [countEv, countEv_append, h1, i3 hm]
        · intro hm
          simp only [List.mem_cons, List.mem_append] at hm
          rcases hm with hm | hm | hm
          · exact absurd hm (by decide)
          · exact absurd hm h4
          · simp [countEv, countEv_append, h1, i4 hm]
      · rw [h] at hstep
        simp only [runShell, h]
        rcases hstep with ⟨l1, l2, _, l4⟩ | ⟨r1, r2, r3, _⟩
        · refine ⟨?_, ?_, fun _ => ?_, fun hm => ?_⟩
          · simp [countEv, l1, l2]
          · simp [countEv, l1]
          · simp [countEv, l1]
          · simp only [List.mem_cons] at hm
            rcases hm with hm | hm
            · exact absurd hm (by decide)
            · exact absurd hm l4
        · refine ⟨?_, ?_, fun hm => ?_, fun _ => ?_⟩
          · simp [countEv, r1, r2]
          · simp [countEv, r1]
          · simp only [List.mem_cons] at hm
            rcases hm with hm | hm
            · exact absurd hm (by decide)
            · exact absurd hm r3
          · simp [countEv, r1]

theorem stepStim_no_cmdsub (env : Env) (ls : LineStim) (h : ls.exp ≠ .errCmdsub)
    (st : Nat) : Event.report st Diag.expCmdsub ∉ evsOf (stepStim env ls) := by
  obtain ⟨raw, exp, alloc, chd, child⟩ := ls
  cases exp with
  | ok ws =>
    rcases hd : dispatch ws with _ | args | args | _ | args | ⟨prog, argv⟩
    · simp [stepStim, hd, evsOf]
    · rcases hex : do_export alloc args env with ⟨env', ds⟩ | ds
      · have hprov := expCmdsub_not_in_export_diags alloc args env
        rw [hex] at hprov
        simp only [stepStim, hd, hex, evsOf]
        exact report_not_mem_map hprov
      · have hprov := expCmdsub_not_in_export_diags alloc args env
        rw [hex] at hprov
        simp only [stepStim, hd, hex, evsOf, List.mem_append, not_or]
        exact ⟨report_not_mem_map hprov, by simp⟩
    · simp only [stepStim, hd, evsOf]
      exact report_not_mem_map (expCmdsub_not_in_unset_diags args env)
    · simp [stepStim, hd, evsOf]
    · simp only [stepStim, hd, evsOf]
      exact report_not_mem_map (expCmdsub_not_in_cd_diags env chd args)
    · cases child with
      | forkFail => simp [stepStim, hd, launch, evsOf]
      | waitFail => simp [stepStim, hd, launch, evsOf]
      | status s =>
        by_cases h1 : WIFEXITED s
        · simp [stepStim, hd, launch, h1, evsOf]
        · by_cases h2 : WIFSIGNALED s
          · simp [stepStim, hd, launch, h1, h2, evsOf]
          · simp [stepStim, hd, launch, h1, h2, evsOf]
  | errBadchar => simp [stepStim, evsOf]
  | errBadval => simp [stepStim, evsOf]
  | errCmdsub => exact absurd rfl h
  | errNospace => simp [stepStim, evsOf]
  | errSyntaxErr => simp [stepStim, evsOf]
  | errOther c => simp [stepStim, evsOf]

/-- Because main's flag set omits `WRDE_NOCMD`, the command-substitution
diagnostic is unreachable in every trace whose expansion outcomes respect
the POSIX wordexp contract. -/
theorem runShell_no_cmdsub_diag (ss : List Stim) : ∀ env : Env,
    (∀ s ∈ ss, contractOK s) →
    ∀ st, Event.report st Diag.expCmdsub ∉ runShell env ss := by
  induction ss with
  | nil => intro env _ st; simp [runShell]
  | cons s rest ih =>
    intro env hc st
    have hhead := hc s (List.mem_cons_self s rest)
    have htail : ∀ s' ∈ rest, contractOK s' := fun s' h' => hc s' (List.mem_cons_of_mem s h')
    match s with
    | .eof rerr => cases rerr <;> simp [runShell]
    | .line ls =>
      have hne : ls.exp ≠ .errCmdsub := by
        intro heq
        have := hhead heq
        exact absurd this.1 (by decide)
      have hstep := stepStim_no_cmdsub env ls hne st
      rcases h : stepStim env ls with ⟨evs, env'⟩ | evs
      · rw [h] at hstep
        simp only [runShell, h, List.mem_cons, List.mem_append, not_or]
        exact ⟨by simp, hstep, ih env' htail st⟩
      · rw [h] at hstep
        simp only [runShell, h, List.mem_cons, not_or]
        exact ⟨by simp, hstep⟩

/-- The function `splitFirstEq` really is the split at the first `'='`: the argument is
the key, then `'='`, then the value (when a value part exists), and the key
itself contains no `'='`. -/
theorem splitFirstEq_spec (a : Str) :
    a = (splitFirstEq a).1 ++ (match (splitFirstEq a).2 with
      | none => []
      | some v => '=' :: v)
    ∧ '=' ∉ (splitFirstEq a).1 := by
  induction a with
  | nil => simp [splitFirstEq]
  | cons c cs ih =>
    by_cases hc : c = '='
    · subst hc
      simp [splitFirstEq]
    · refine ⟨?_, ?_⟩
      · simp only [splitFirstEq, hc, if_false, List.cons_append]
        exact congrArg (c :: ·) ih.1
      · simp only [splitFirstEq, hc, if_false, List.mem_cons, not_or]
        exact ⟨Ne.symm hc, ih.2⟩

/-- C1: the spec claims lines with a command substitution are rejected by
the word-expansion flag set. In the code the flag set is
`WRDE_REUSE | WRDE_SHOWERR | WRDE_UNDEF`, which omits `WRDE_NOCMD`; under the
POSIX wordexp contract the command-substitution-attempted classification
therefore cannot arise (its handler and diagnostic are dead code), and a
line containing a command substitution is expanded — the substitution is
performed — and the result dispatched. -/
theorem C1_cmdsub_not_rejected :
    shellWordexpFlags &&& WRDE_NOCMD = 0
    ∧ (∀ (l : Str) (r : ExpResult),
        wordexpContract shellWordexpFlags l r → r ≠ .errCmdsub)
    ∧ (∀ (env : Env) (ss : List Stim), (∀ s ∈ ss, contractOK s) →
        ∀ st, Event.report st Diag.expCmdsub ∉ runShell env ss)
    ∧ hasCmdSub (trim_newline (str "echo $(pwd)\n")) = true
    ∧ contractOK (.line ⟨str "echo $(pwd)\n", .ok [str "echo", str "/root"],
        none, true, .status 0⟩)
    ∧ runShell [] [.line ⟨str "echo $(pwd)\n", .ok [str "echo", str "/root"],
        none, true, .status 0⟩]
      = [.promptEv, .launched (str "echo") [str "echo", str "/root"],
         .reportExit 0, .promptEv] := by
  refine ⟨by decide, ?_, fun env ss => runShell_no_cmdsub_diag ss env,
    by decide, ?_, by decide⟩
  · intro l r hc hr
    rcases hc hr with ⟨hf, _⟩
    exact hf (by decide)
  · intro heq
    exact absurd heq (by decide)

/-- C1 witness: the universally quantified clauses of
`C1_cmdsub_not_rejected` instantiated at concrete inputs. -/
theorem C1_cmdsub_not_rejected_witness :
    ExpResult.ok [] ≠ ExpResult.errCmdsub
    ∧ Event.report 0 Diag.expCmdsub ∉ runShell [] [.eof false] :=
  ⟨C1_cmdsub_not_rejected.2.1 (str "ls") (.ok [])
      (fun h => absurd h (by decide)),
    C1_cmdsub_not_rejected.2.2.1 [] [.eof false]
      (by
        intro s hs
        simp only [List.mem_singleton] at hs
        subst hs
        trivial) 0⟩

/-- C2 counterexample: an unexpected word-expansion code is a path that ends
the process, and on it neither the line buffer nor the expander state is
released — the claim's "every fatal-error termination" clause fails. -/
theorem C2_counterexample :
    Event.exited 1
      ∈ runShell [] [.line ⟨str "foo", .errOther 42, none, true, .status 0⟩]
    ∧ countEv .freeLine
        (runShell [] [.line ⟨str "foo", .errOther 42, none, true, .status 0⟩]) = 0
    ∧ countEv .freeWordexp
        (runShell [] [.line ⟨str "foo", .errOther 42, none, true, .status 0⟩]) = 0 := by
  decide

/-- C2 (amended): on every trace the two buffers are released the same
number of times and at most once; every trace that exits with status 0 (the
exit builtin or clean end-of-input) releases each exactly once, and every
fatal termination (exit status 1) releases neither. -/
theorem C2_release_on_exit :
    ∀ (env : Env) (ss : List Stim),
      countEv .freeLine (runShell env ss) = countEv .freeWordexp (runShell env ss)
      ∧ countEv .freeLine (runShell env ss) ≤ 1
      ∧ (Event.exited 0 ∈ runShell env ss → countEv .freeLine (runShell env ss) = 1)
      ∧ (Event.exited 1 ∈ runShell env ss → countEv .freeLine (runShell env ss) = 0) :=
  fun env ss => runShell_release_spec ss env

/-- C2 witness: `C2_release_on_exit` at a clean end-of-input trace and at a
fatal read-error trace. -/
theorem C2_release_on_exit_witness :
    countEv .freeLine (runShell [] [.eof false]) = 1
    ∧ countEv .freeLine (runShell [] [.eof true]) = 0 :=
  ⟨(C2_release_on_exit [] [.eof false]).2.2.1 (by decide),
   (C2_release_on_exit [] [.eof true]).2.2.2 (by decide)⟩

/-- C3: each export argument is split at its first `'='`; with an `'='` the
store entry for the key is set to the value, overwriting any existing value
and touching no other key; without an `'='` the store is left untouched; a
set failure adds a diagnostic naming the argument and the remaining
arguments are still processed; no argument aborts the builtin. -/
theorem C3_export_semantics :
    (∀ a : Str, a = (splitFirstEq a).1 ++ (match (splitFirstEq a).2 with
        | none => []
        | some v => '=' :: v)
      ∧ '=' ∉ (splitFirstEq a).1)
    ∧ (∀ (a : Str) (rest : List Str) (env : Env), (splitFirstEq a).2 = none →
        do_export none (a :: rest) env = do_export none rest env)
    ∧ (∀ (a k v : Str) (rest : List Str) (env : Env),
        splitFirstEq a = (k, some v) → ¬(k = [] ∨ '=' ∈ k) →
        do_export none (a :: rest) env = do_export none rest (Env.setRaw env k v))
    ∧ (∀ (env : Env) (k v : Str), Env.get (Env.setRaw env k v) k = some v)
    ∧ (∀ (env : Env) (k v k' : Str), k' ≠ k →
        Env.get (Env.setRaw env k v) k' = Env.get env k')
    ∧ (∀ (a k v : Str) (rest : List Str) (env : Env),
        splitFirstEq a = (k, some v) → (k = [] ∨ '=' ∈ k) →
        do_export none (a :: rest) env
          = (do_export none rest env).consDiag (.couldntSet a))
    ∧ (∀ (args : List Str) (env : Env), ∃ e ds, do_export none args env = .ok e ds) := by
  refine ⟨splitFirstEq_spec, ?_, ?_, Env.get_setRaw_same, ?_, ?_, do_export_none_ok⟩
  · intro a rest env h
    simp [do_export, h]
  · intro a k v rest env hsplit hvalid
    have h1 : (splitFirstEq a).1 = k := by rw [hsplit]
    have h2 : (splitFirstEq a).2 = some v := by rw [hsplit]
    simp [do_export, h1, h2, setenv, hvalid]
  · intro env k v k' h
    exact Env.get_setRaw_other env k v k' h
  · intro a k v rest env hsplit hinvalid
    have h1 : (splitFirstEq a).1 = k := by rw [hsplit]
    have h2 : (splitFirstEq a).2 = some v := by rw [hsplit]
    simp [do_export, h1, h2, setenv, hinvalid]

/-- C3 witness: `C3_export_semantics` at a bare name, at a proper
assignment, and at a failing assignment followed by a further argument. -/
theorem C3_export_semantics_witness :
    do_export none [str "FOO"] [] = do_export none [] []
    ∧ do_export none [str "FOO=bar"] []
        = do_export none [] (Env.setRaw [] (str "FOO") (str "bar"))
    ∧ do_export none [str "=V", str "B=c"] []
        = (do_export none [str "B=c"] []).consDiag (.couldntSet (str "=V")) :=
  ⟨C3_export_semantics.2.1 (str "FOO") [] [] (by decide),
   C3_export_semantics.2.2.1 (str "FOO=bar") (str "FOO") (str "bar") [] []
     (by decide) (by decide),
   C3_export_semantics.2.2.2.2.2.1 (str "=V") [] (str "V") [str "B=c"] []
     (by decide) (by decide)⟩

/-- C4: `cd` with no argument targets `HOME` (diagnostic and no change when
`HOME` is unset), with one argument targets that argument, with two or more
arguments reports too-many-arguments and changes nothing, and a failed
`chdir` reports a diagnostic naming the target and changes nothing. -/
theorem C4_cd_semantics :
    (∀ (env : Env) (b : Bool), Env.get env (str "HOME") = none →
        do_cd env b [] = (.noChange, [.homeNotSet]))
    ∧ (∀ (env : Env) (h : Str), Env.get env (str "HOME") = some h →
        do_cd env true [] = (.changedTo h, []))
    ∧ (∀ (env : Env) (h : Str), Env.get env (str "HOME") = some h →
        do_cd env false [] = (.noChange, [.couldntCd h]))
    ∧ (∀ (env : Env) (d : Str), do_cd env true [d] = (.changedTo d, []))
    ∧ (∀ (env : Env) (d : Str), do_cd env false [d] = (.noChange, [.couldntCd d]))
    ∧ (∀ (env : Env) (b : Bool) (d1 d2 : Str) (rest : List Str),
        do_cd env b (d1 :: d2 :: rest) = (.noChange, [.tooManyArgs])) := by
  refine ⟨?_, ?_, ?_, ?_, ?_, ?_⟩
  · intro env b h
    simp [do_cd, h]
  · intro env h hh
    simp [do_cd, hh]
  · intro env h hh
    simp [do_cd, hh]
  · intro env d
    simp [do_cd]
  · intro env d
    simp [do_cd]
  · intro env b d1 d2 rest
    simp [do_cd]

/-- C4 witness: `C4_cd_semantics` with `HOME` unset, and with `HOME` set and
a succeeding and a failing `chdir`. -/
theorem C4_cd_semantics_witness :
    do_cd [] true [] = (.noChange, [.homeNotSet])
    ∧ do_cd [(str "HOME", str "/home/u")] true []
        = (.changedTo (str "/home/u"), [])
    ∧ do_cd [(str "HOME", str "/home/u")] false []
        = (.noChange, [.couldntCd (str "/home/u")]) :=
  ⟨C4_cd_semantics.1 [] true (by decide),
   C4_cd_semantics.2.1 [(str "HOME", str "/home/u")] (str "/home/u") (by decide),
   C4_cd_semantics.2.2.1 [(str "HOME", str "/home/u")] (str "/home/u") (by decide)⟩

/-- C5: an empty expanded word sequence is a no-op and the loop repeats;
otherwise the first word is compared, case-sensitively (list-of-character
equality), against exactly `export`, `unset`, `exit`, `cd`, and on no match
the whole sequence is handed to the launcher with the first word as program
name and the full sequence (first word included) as argument vector. -/
theorem C5_dispatch_semantics :
    dispatch [] = .nop
    ∧ (∀ (env : Env) (rest : List Stim) (raw : Str) (alloc : Option Nat)
        (chd : Bool) (child : ChildWait),
        runShell env (.line ⟨raw, .ok [], alloc, chd, child⟩ :: rest)
          = .promptEv :: runShell env rest)
    ∧ (∀ rest : List Str, dispatch (str "export" :: rest) = .builtinExport rest)
    ∧ (∀ rest : List Str, dispatch (str "unset" :: rest) = .builtinUnset rest)
    ∧ (∀ rest : List Str, dispatch (str "exit" :: rest) = .builtinExit)
    ∧ (∀ rest : List Str, dispatch (str "cd" :: rest) = .builtinCd rest)
    ∧ (∀ (w : Str) (ws : List Str),
        w ≠ str "export" → w ≠ str "unset" → w ≠ str "exit" → w ≠ str "cd" →
        dispatch (w :: ws) = .launchProg w (w :: ws)) := by
  refine ⟨rfl, ?_, ?_, ?_, ?_, ?_, ?_⟩
  · intro env rest raw alloc chd child
    simp [runShell, stepStim, dispatch]
  · intro rest
    simp [dispatch]
  · intro rest
    simp [dispatch, show str "unset" ≠ str "export" from by decide]
  · intro rest
    simp [dispatch, show str "exit" ≠ str "export" from by decide,
      show str "exit" ≠ str "unset" from by decide]
  · intro rest
    simp [dispatch, show str "cd" ≠ str "export" from by decide,
      show str "cd" ≠ str "unset" from by decide,
      show str "cd" ≠ str "exit" from by decide]
  · intro w ws h1 h2 h3 h4
    simp only [dispatch]
    rw [if_neg h1, if_neg h2, if_neg h3, if_neg h4]

/-- C5 witness: `C5_dispatch_semantics` at a blank line in the loop and at a
capitalized non-builtin first word (case sensitivity). -/
theorem C5_dispatch_semantics_witness :
    runShell [] [.line ⟨str "", .ok [], none, true, .status 0⟩]
      = .promptEv :: runShell [] []
    ∧ dispatch [str "EXIT"] = .launchProg (str "EXIT") [str "EXIT"] :=
  ⟨C5_dispatch_semantics.2.1 [] [] (str "") none true (.status 0),
   C5_dispatch_semantics.2.2.2.2.2.2 (str "EXIT") []
     (by decide) (by decide) (by decide) (by decide)⟩

/-- C6: a completed child is classified by the wait-status macros: a normal
termination reports the numeric exit code, a termination by signal reports
the signal number and its `strsignal` name, and a status that is neither
classification is a fatal invariant violation that terminates the whole
session. -/
theorem C6_wait_classification :
    (∀ (s : Nat) (p : Str) (argv : List Str), WIFEXITED s = true →
        launch p argv (.status s)
          = ([.launched p argv, .reportExit (WEXITSTATUS s)], true))
    ∧ (∀ (s : Nat) (p : Str) (argv : List Str),
        WIFEXITED s = false → WIFSIGNALED s = true →
        launch p argv (.status s)
          = ([.launched p argv,
              .reportSignal (WTERMSIG s) (strsignal (WTERMSIG s))], true))
    ∧ (∀ (s : Nat) (p : Str) (argv : List Str),
        WIFEXITED s = false → WIFSIGNALED s = false →
        launch p argv (.status s)
          = ([.launched p argv, .report 1 .waitInvariant, .exited 1], false))
    ∧ (∀ (env : Env) (rest : List Stim) (raw : Str) (alloc : Option Nat)
        (chd : Bool) (s : Nat) (w : Str) (ws : List Str),
        WIFEXITED s = false → WIFSIGNALED s = false →
        w ≠ str "export" → w ≠ str "unset" → w ≠ str "exit" → w ≠ str "cd" →
        runShell env (.line ⟨raw, .ok (w :: ws), alloc, chd, .status s⟩ :: rest)
          = [.promptEv, .launched w (w :: ws), .report 1 .waitInvariant,
             .exited 1]) := by
  refine ⟨?_, ?_, ?_, ?_⟩
  · intro s p argv h
    simp [launch, h]
  · intro s p argv h1 h2
    simp [launch, h1, h2]
  · intro s p argv h1 h2
    simp [launch, h1, h2]
  · intro env rest raw alloc chd s w ws h1 h2 hw1 hw2 hw3 hw4
    have hd : dispatch (w :: ws) = .launchProg w (w :: ws) := by
      simp only [dispatch]
      rw [if_neg hw1, if_neg hw2, if_neg hw3, if_neg hw4]
    simp [runShell, stepStim, hd, launch, h1, h2]

/-- C6 witness: `C6_wait_classification` at status 512 (exit code 2), at
status 15 (killed by SIGTERM), and at status 127 (neither classification). -/
theorem C6_wait_classification_witness :
    launch (str "a") [str "a"] (.status 512)
      = ([.launched (str "a") [str "a"], .reportExit 2], true)
    ∧ launch (str "a") [str "a"] (.status 15)
        = ([.launched (str "a") [str "a"],
            .reportSignal 15 (str "Terminated")], true)
    ∧ launch (str "a") [str "a"] (.status 127)
        = ([.launched (str "a") [str "a"], .report 1 .waitInvariant,
            .exited 1], false) :=
  ⟨C6_wait_classification.1 512 (str "a") [str "a"] (by decide),
   C6_wait_classification.2.1 15 (str "a") [str "a"] (by decide) (by decide),
   C6_wait_classification.2.2.1 127 (str "a") [str "a"] (by decide) (by decide)⟩

/-- C7: clean end-of-input emits exactly one newline, exits the loop
(consuming nothing further), releases the buffers, and exits with status 0. -/
theorem C7_clean_eof :
    ∀ (env : Env) (rest : List Stim),
      runShell env (.eof false :: rest)
        = [.promptEv, .outNewline, .freeWordexp, .freeLine, .exited 0]
      ∧ countEv .outNewline (runShell env (.eof false :: rest)) = 1
      ∧ (runShell env (.eof false :: rest)).getLast? = some (.exited 0) := by
  intro env rest
  have h : runShell env (.eof false :: rest)
      = [.promptEv, .outNewline, .freeWordexp, .freeLine, .exited 0] := by
    simp [runShell]
  exact ⟨h, by rw [h]; decide, by rw [h]; decide⟩

/-- C8: prompt rendering has exactly the three outcomes — the directory when
it fits the bounded label, the fixed too-long placeholder on ERANGE, the
fixed failure placeholder plus a non-fatal diagnostic otherwise — and every
`error` call it makes carries status 0, so it never terminates the session. -/
theorem C8_prompt_outcomes :
    (∀ p : Str, p.length + 1 ≤ MAX_PATH_AT_PROMPT → prompt p none = ⟨p, []⟩)
    ∧ (∀ p : Str, MAX_PATH_AT_PROMPT < p.length + 1 →
        prompt p none = ⟨str "!Path too long to be shown!", []⟩)
    ∧ (∀ (p : Str) (e : Nat),
        prompt p (some e) = ⟨str "!Failed to get CWD!", [(0, .cwdFail e)]⟩)
    ∧ (∀ (p : Str) (f : Option Nat) (r : Nat × Diag),
        r ∈ (prompt p f).reports → r.1 = 0) := by
  refine ⟨?_, ?_, ?_, ?_⟩
  · intro p h
    simp [prompt, getcwdModel, h]
  · intro p h
    have hc : ¬(p.length + 1 ≤ MAX_PATH_AT_PROMPT) := not_le.mpr h
    simp only [prompt, getcwdModel, hc, if_false]
    decide
  · intro p e
    simp only [prompt, getcwdModel]
    exact congrArg (PromptOut.mk · [(0, .cwdFail e)]) (by decide)
  · intro p f r hr
    match f with
    | some e =>
      simp only [prompt, getcwdModel] at hr
      simp only [List.mem_singleton] at hr
      subst hr
      rfl
    | none =>
      by_cases hlen : p.length + 1 ≤ MAX_PATH_AT_PROMPT
      · simp [prompt, getcwdModel, hlen] at hr
      · simp [prompt, getcwdModel, hlen] at hr

/-- C8 witness: `C8_prompt_outcomes` at a short path, at a 300-character
path, and at a failing retrieval. -/
theorem C8_prompt_outcomes_witness :
    prompt (str "/root") none = ⟨str "/root", []⟩
    ∧ prompt (List.replicate 300 'a') none
        = ⟨str "!Path too long to be shown!", []⟩
    ∧ ((0, Diag.cwdFail 13) : Nat × Diag).1 = 0 :=
  ⟨C8_prompt_outcomes.1 (str "/root") (by decide),
   C8_prompt_outcomes.2.1 (List.replicate 300 'a')
     (by rw [List.length_replicate]; decide),
   C8_prompt_outcomes.2.2.2 (str "/root") (some 13) (0, .cwdFail 13) (by decide)⟩

/-- C9: unsetting an absent key leaves the store unchanged with no
diagnostic; unset is idempotent per key at the store level; a removal
failure adds a diagnostic and the remaining arguments are still processed,
as is the store update of a successful removal. -/
theorem C9_unset_idempotent :
    (∀ (k : Str) (env : Env), ¬(k = [] ∨ '=' ∈ k) → Env.get env k = none →
        do_unset [k] env = (env, []))
    ∧ (∀ (k : Str) (env : Env),
        (do_unset [k] ((do_unset [k] env).1)).1 = (do_unset [k] env).1)
    ∧ (∀ (a : Str) (rest : List Str) (env : Env), (a = [] ∨ '=' ∈ a) →
        do_unset (a :: rest) env
          = ((do_unset rest env).1, .couldntUnset a :: (do_unset rest env).2))
    ∧ (∀ (a : Str) (rest : List Str) (env : Env), ¬(a = [] ∨ '=' ∈ a) →
        do_unset (a :: rest) env = do_unset rest (Env.removeRaw env a)) := by
  have hvalid_step : ∀ (a : Str) (rest : List Str) (env : Env),
      ¬(a = [] ∨ '=' ∈ a) →
      do_unset (a :: rest) env = do_unset rest (Env.removeRaw env a) := by
    intro a rest env h
    simp [do_unset, unsetenv, h]
  have hinvalid_step : ∀ (a : Str) (rest : List Str) (env : Env),
      (a = [] ∨ '=' ∈ a) →
      do_unset (a :: rest) env
        = ((do_unset rest env).1, .couldntUnset a :: (do_unset rest env).2) := by
    intro a rest env h
    simp [do_unset, unsetenv, h]
  refine ⟨?_, ?_, hinvalid_step, hvalid_step⟩
  · intro k env hv hnone
    rw [hvalid_step k [] env hv, Env.removeRaw_of_get_none env k hnone]
    rfl
  · intro k env
    by_cases hv : k = [] ∨ '=' ∈ k
    · rw [hinvalid_step k [] env hv]
      rw [hinvalid_step k [] _ hv]
      simp [do_unset]
    · rw [hvalid_step k [] env hv]
      show (do_unset [k] (Env.removeRaw env k)).1 = Env.removeRaw env k
      rw [hvalid_step k [] _ hv]
      show (do_unset [] (Env.removeRaw (Env.removeRaw env k) k)).1
        = Env.removeRaw env k
      simp [do_unset, Env.removeRaw_idem]

/-- C9 witness: `C9_unset_idempotent` at an absent valid key and at an
invalid key followed by a further argument. -/
theorem C9_unset_idempotent_witness :
    do_unset [str "FOO"] [(str "A", str "b")] = ([(str "A", str "b")], [])
    ∧ do_unset [str "=x", str "A"] [(str "A", str "b")]
        = ((do_unset [str "A"] [(str "A", str "b")]).1,
           .couldntUnset (str "=x") :: (do_unset [str "A"] [(str "A", str "b")]).2) :=
  ⟨C9_unset_idempotent.1 (str "FOO") [(str "A", str "b")] (by decide) (by decide),
   C9_unset_idempotent.2.2.1 (str "=x") [str "A"] [(str "A", str "b")] (by decide)⟩

/-- C10: an export argument whose first character is `'='` splits into the
empty key and the remainder as value; `setenv` on the empty key fails; the
failure adds a diagnostic naming the argument, the environment passed on to
the remaining arguments is unchanged, and they are still processed. -/
theorem C10_export_empty_key :
    ∀ (v : Str) (rest : List Str) (env : Env),
      splitFirstEq ('=' :: v) = ([], some v)
      ∧ setenv env [] v = none
      ∧ do_export none (('=' :: v) :: rest) env
          = (do_export none rest env).consDiag (.couldntSet ('=' :: v))
      ∧ (do_export none (('=' :: v) :: rest) env).envOut
          = (do_export none rest env).envOut := by
  intro v rest env
  have h1 : splitFirstEq ('=' :: v) = ([], some v) := by simp [splitFirstEq]
  have h2 : setenv env [] v = none := by simp [setenv]
  have h3 : do_export none (('=' :: v) :: rest) env
      = (do_export none rest env).consDiag (.couldntSet ('=' :: v)) := by
    have ha : (splitFirstEq ('=' :: v)).1 = [] := by rw [h1]
    have hb : (splitFirstEq ('=' :: v)).2 = some v := by rw [h1]
    simp [do_export, ha, hb, setenv]
  refine ⟨h1, h2, h3, ?_⟩
  rw [h3]
  obtain ⟨e, ds, h⟩ := do_export_none_ok rest env
  rw [h]
  rfl

end KidShell
